import Mathlib

/-!
Verification of the MOP gear-metrology core (MOP.py) against its specification.

The numerical core works on IEEE doubles; here it is shallowly embedded over `ℝ`:
every Python float expression is translated to the corresponding exact real
expression, `math.tan`/`math.cos`/`math.atan` become `Real.tan`/`Real.cos`/
`Real.arctan`, and a function that raises `ValueError` is embedded as an
`Option`-valued function returning `none` exactly on the inputs that raise.
The module constant `PI_HIGH_PRECISION` is a 50-digit decimal literal of π
(which rounds to the same double as `math.pi`); in the real embedding it is
modelled as `Real.pi`.
-/

open Classical

namespace MOP

/-- Source constant `PI_HIGH_PRECISION = 3.1415926535897932384626433832795028841971693993751`,
a 50-digit decimal approximation of π, modelled in the real embedding as π itself. -/
noncomputable def PI_HIGH_PRECISION : ℝ := Real.pi

/-- `def inv(x): return math.tan(x) - x`  (MOP.py line 35). -/
noncomputable def inv (x : ℝ) : ℝ := Real.tan x - x

/-- The Newton-Raphson loop body of `inv_inverse` (MOP.py lines 44-65), with the
remaining iteration count as fuel.  Each step computes
`f = tan x - x - y`, `df = 1/cos²x - 1`; if `|df| < 1e-18` it stops at the
current `x` (stability guard); otherwise it steps to `x - f/df` and stops there
when `|step| < 1e-16` and `|f| < 1e-16`. -/
noncomputable def inv_inverse_iter (y : ℝ) : ℕ → ℝ → ℝ
  | 0, x => x
  | n + 1, x =>
    let f := Real.tan x - x - y
    let df := 1 / (Real.cos x * Real.cos x) - 1
    if |df| < 1e-18 then x
    else
      let step := f / df
      let x1 := x - step
      if |step| < 1e-16 ∧ |f| < 1e-16 then x1
      else inv_inverse_iter y n x1

/-- `inv_inverse(y, x0=0.5)` (MOP.py lines 38-67): invert the involute by
Newton-Raphson with at most 250 iterations.  The source's default seed
`x0 = 0.5` is passed explicitly at every call site below. -/
noncomputable def inv_inverse (y x0 : ℝ) : ℝ :=
  inv_inverse_iter y 250 x0

/-- The `Result` dataclass (MOP.py lines 70-82), shared by all solvers.
`MOW` holds the MOP value for external gears and the MBP value for internal
gears; `C2` is the pin-center diameter; `factor` is `cos(π/(2z))` for odd
tooth counts and `1.0` for even. -/
structure Result where
  method : String
  MOW : ℝ
  Dp : ℝ
  Db : ℝ
  E : ℝ
  inv_alpha : ℝ
  inv_beta : ℝ
  beta_rad : ℝ
  beta_deg : ℝ
  C2 : ℝ
  factor : ℝ

/-- `mow_spur_external_dp(z, DP, alpha_deg, t, d)` (MOP.py lines 84-128):
Measurement Over Pins for external spur gears.  Raises (returns `none`) iff
`z <= 0 or DP <= 0 or d <= 0 or t <= 0` — note the source does not check
`alpha_deg`. -/
noncomputable def mow_spur_external_dp (z : ℤ) (DP alpha_deg t d : ℝ) : Option Result :=
  if z ≤ 0 ∨ DP ≤ 0 ∨ d ≤ 0 ∨ t ≤ 0 then none
  else
    let alpha := alpha_deg * (PI_HIGH_PRECISION / 180)
    let Dp := (z : ℝ) / DP
    let Db := Dp * Real.cos alpha
    let E := PI_HIGH_PRECISION / (z : ℝ)
    let inv_alpha := inv alpha
    let inv_beta := t / Dp - E + inv_alpha + d / Db
    let beta := inv_inverse inv_beta 0.5
    let C2 := Db / Real.cos beta
    if z % 2 = 0 then
      some ⟨"2-pin", C2 + d, Dp, Db, E, inv_alpha, inv_beta, beta,
        beta * (180 / PI_HIGH_PRECISION), C2, 1⟩
    else
      let factor := Real.cos (PI_HIGH_PRECISION / (2 * (z : ℝ)))
      some ⟨"odd tooth", C2 * factor + d, Dp, Db, E, inv_alpha, inv_beta, beta,
        beta * (180 / PI_HIGH_PRECISION), C2, factor⟩

/-- `mbp_spur_internal_dp(z, DP, alpha_deg, s, d)` (MOP.py lines 130-197):
Measurement Between Pins for internal spur gears.  Converts the input via
`circular_pitch = π/DP`, `space_width_calc = circular_pitch - s`, then
`inv_beta = π/z - space_width_calc/Dp - d/Db + inv_alpha`.  The returned `C2`
field is `R_pin_center * 2.0` where `R_pin_center = pin_center_diameter / 2`. -/
noncomputable def mbp_spur_internal_dp (z : ℤ) (DP alpha_deg s d : ℝ) : Option Result :=
  if z ≤ 0 ∨ DP ≤ 0 ∨ d ≤ 0 ∨ s ≤ 0 then none
  else
    let alpha := alpha_deg * (PI_HIGH_PRECISION / 180)
    let Dp := (z : ℝ) / DP
    let Db := Dp * Real.cos alpha
    let E := PI_HIGH_PRECISION / (z : ℝ)
    let inv_alpha := inv alpha
    let circular_pitch := PI_HIGH_PRECISION / DP
    let space_width_calc := circular_pitch - s
    let inv_beta := PI_HIGH_PRECISION / (z : ℝ) - space_width_calc / Dp - d / Db + inv_alpha
    let beta := inv_inverse inv_beta 0.5
    let pin_center_diameter := Db / Real.cos beta
    let R_pin_center := pin_center_diameter / 2
    if z % 2 = 0 then
      some ⟨"2-pin", pin_center_diameter - d, Dp, Db, E, inv_alpha, inv_beta, beta,
        beta * (180 / PI_HIGH_PRECISION), R_pin_center * 2, 1⟩
    else
      let factor := Real.cos (PI_HIGH_PRECISION / (2 * (z : ℝ)))
      some ⟨"odd tooth", factor * pin_center_diameter - d, Dp, Db, E, inv_alpha, inv_beta, beta,
        beta * (180 / PI_HIGH_PRECISION), R_pin_center * 2, factor⟩

/-- `helical_conversions(normal_pa_deg, helix_deg, normal_dp)` (MOP.py lines 200-235):
returns `(trans_pa_deg, trans_dp, base_helix_deg, lead_coefficient)`; identity
conversion when `|helix_deg| < 0.01`. -/
noncomputable def helical_conversions (normal_pa_deg helix_deg normal_dp : ℝ) :
    ℝ × ℝ × ℝ × ℝ :=
  if |helix_deg| < 0.01 then (normal_pa_deg, normal_dp, 0, 0)
  else
    let helix_rad := helix_deg * (PI_HIGH_PRECISION / 180)
    let normal_pa_rad := normal_pa_deg * (PI_HIGH_PRECISION / 180)
    let trans_pa_rad := Real.arctan (Real.tan normal_pa_rad / Real.cos helix_rad)
    let trans_pa_deg := trans_pa_rad * (180 / PI_HIGH_PRECISION)
    let trans_dp := normal_dp * Real.cos helix_rad
    let base_helix_rad := Real.arctan (Real.tan helix_rad * Real.cos trans_pa_rad)
    let base_helix_deg := base_helix_rad * (180 / PI_HIGH_PRECISION)
    (trans_pa_deg, trans_dp, base_helix_deg, Real.tan helix_rad)

/-- The extra attributes the helical wrappers attach to the spur `Result`
(MOP.py lines 340-347 and 389-396).  In the source these are injected as
dynamic attributes; in the spur-delegation branch they are absent, which the
embedding records as `Option HelicalExtras`. -/
structure HelicalExtras where
  helix_deg : ℝ
  normal_pa_deg : ℝ
  normal_dp : ℝ
  trans_pa_deg : ℝ
  trans_dp : ℝ
  base_helix_deg : ℝ
  helical_correction : ℝ

/-- `mow_helical_external_dp(z, normal_DP, normal_alpha_deg, t, d, helix_deg)`
(MOP.py lines 302-349).  `|helix_deg| < 0.01` delegates directly to the spur
solver (no extra attributes attached); otherwise it converts to transverse
parameters, divides the tooth thickness by `cos(helix_rad)`, delegates to the
spur solver, and attaches the traceability attributes with
`helical_correction = 0.0`. -/
noncomputable def mow_helical_external_dp (z : ℤ)
    (normal_DP normal_alpha_deg t d helix_deg : ℝ) :
    Option (Result × Option HelicalExtras) :=
  if |helix_deg| < 0.01 then
    (mow_spur_external_dp z normal_DP normal_alpha_deg t d).map (fun r => (r, none))
  else
    let conv := helical_conversions normal_alpha_deg helix_deg normal_DP
    let trans_pa_deg := conv.1
    let trans_dp := conv.2.1
    let base_helix_deg := conv.2.2.1
    let helix_rad := helix_deg * (PI_HIGH_PRECISION / 180)
    let trans_tooth_thickness := t / Real.cos helix_rad
    (mow_spur_external_dp z trans_dp trans_pa_deg trans_tooth_thickness d).map
      (fun r => (r, some ⟨helix_deg, normal_alpha_deg, normal_DP, trans_pa_deg,
        trans_dp, base_helix_deg, 0⟩))

/-- `mbp_helical_internal_dp(z, normal_DP, normal_alpha_deg, s, d, helix_deg)`
(MOP.py lines 351-398): structurally identical to the external wrapper with
space width in place of tooth thickness. -/
noncomputable def mbp_helical_internal_dp (z : ℤ)
    (normal_DP normal_alpha_deg s d helix_deg : ℝ) :
    Option (Result × Option HelicalExtras) :=
  if |helix_deg| < 0.01 then
    (mbp_spur_internal_dp z normal_DP normal_alpha_deg s d).map (fun r => (r, none))
  else
    let conv := helical_conversions normal_alpha_deg helix_deg normal_DP
    let trans_pa_deg := conv.1
    let trans_dp := conv.2.1
    let base_helix_deg := conv.2.2.1
    let helix_rad := helix_deg * (PI_HIGH_PRECISION / 180)
    let trans_space_width := s / Real.cos helix_rad
    (mbp_spur_internal_dp z trans_dp trans_pa_deg trans_space_width d).map
      (fun r => (r, some ⟨helix_deg, normal_alpha_deg, normal_DP, trans_pa_deg,
        trans_dp, base_helix_deg, 0⟩))

/-- Engineered involute target: for this value `y`, the first Newton-Raphson
step of `inv_inverse` from the default seed `0.5` lands exactly on `w`
(because `0.5 - f(0.5)/df(0.5) = w` by construction).  When `cos²w = 1`
(i.e. `w` is a multiple of π) the `|f'| < 1e-18` stability guard then fires at
`w` and the iteration returns `w` itself. -/
noncomputable def newtonTarget (w : ℝ) : ℝ :=
  Real.tan 0.5 - 0.5 - (1 / (Real.cos 0.5 * Real.cos 0.5) - 1) * (0.5 - w)

/-- Engineered pin diameter for the external gear `z = 2, DP = 1, pa = 45°,
t = 1`: it makes the solver's involute equation value equal
`newtonTarget (kπ)`, so the Newton solve returns exactly `kπ`. -/
noncomputable def extPin (k : ℝ) : ℝ :=
  Real.sqrt 2 * (newtonTarget (k * Real.pi) - (3 / 2 - 3 * Real.pi / 4))

/-- Engineered pin diameter for the internal gear `z = 2, DP = 1, pa = 45°,
s = 8`: it makes the solver's involute equation value equal
`newtonTarget (kπ)`, so the Newton solve returns exactly `kπ`. -/
noncomputable def intPin (k : ℝ) : ℝ :=
  Real.sqrt 2 * ((5 - Real.pi / 4) - newtonTarget (k * Real.pi))

/-- One unfolding of the Newton-Raphson loop body, stated let-free. -/
theorem inv_inverse_iter_succ (y : ℝ) (n : ℕ) (x : ℝ) :
    inv_inverse_iter y (n + 1) x =
      if |1 / (Real.cos x * Real.cos x) - 1| < 1e-18 then x
      else
        if |(Real.tan x - x - y) / (1 / (Real.cos x * Real.cos x) - 1)| < 1e-16 ∧
            |Real.tan x - x - y| < 1e-16 then
          x - (Real.tan x - x - y) / (1 / (Real.cos x * Real.cos x) - 1)
        else
          inv_inverse_iter y n
            (x - (Real.tan x - x - y) / (1 / (Real.cos x * Real.cos x) - 1)) := rfl

/-- Taylor bounds on `cos 0.5`, from Mathlib's quartic remainder estimate. -/
theorem cos_half_bounds : (0.8717 : ℝ) ≤ Real.cos 0.5 ∧ Real.cos 0.5 ≤ 0.8783 := by
  have habs : |(0.5 : ℝ)| ≤ 1 := by
    rw [abs_of_pos (by norm_num : (0 : ℝ) < 0.5)]; norm_num
  have h := Real.cos_bound habs
  rw [abs_of_pos (by norm_num : (0 : ℝ) < 0.5), abs_le] at h
  obtain ⟨h1, h2⟩ := h
  norm_num at h1 h2
  constructor <;> linarith

/-- Bounds on the code's Newton derivative `df = 1/cos²(0.5) - 1` at the seed. -/
theorem df_half_bounds :
    (0.29 : ℝ) ≤ 1 / (Real.cos 0.5 * Real.cos 0.5) - 1 ∧
      1 / (Real.cos 0.5 * Real.cos 0.5) - 1 ≤ 0.32 := by
  obtain ⟨h1, h2⟩ := cos_half_bounds
  have hpos : (0 : ℝ) < Real.cos 0.5 * Real.cos 0.5 := by nlinarith
  constructor
  · rw [le_sub_iff_add_le, le_div_iff₀ hpos]
    nlinarith
  · rw [sub_le_iff_le_add, div_le_iff₀ hpos]
    nlinarith

/-- At the seed `0.5` the stability guard `|df| < 1e-18` does not fire. -/
theorem df_half_guard : ¬|1 / (Real.cos 0.5 * Real.cos 0.5) - 1| < 1e-18 := by
  obtain ⟨h1, _⟩ := df_half_bounds
  rw [abs_of_pos (by linarith)]
  exact not_lt.mpr (by linarith)

/-- Bounds on `tan 0.5`. -/
theorem tan_half_bounds : (0.5 : ℝ) < Real.tan 0.5 ∧ Real.tan 0.5 ≤ 0.58 := by
  obtain ⟨hc1, hc2⟩ := cos_half_bounds
  constructor
  · exact Real.lt_tan (by norm_num) (by linarith [Real.pi_gt_three])
  · rw [Real.tan_eq_sin_div_cos, div_le_iff₀ (by linarith : (0 : ℝ) < Real.cos 0.5)]
    have hs := Real.sin_lt (by norm_num : (0 : ℝ) < 0.5)
    nlinarith

/-- Linear upper bound on the engineered target. -/
theorem newtonTarget_le (w : ℝ) (hw : 0.5 ≤ w) :
    newtonTarget w ≤ 0.08 + 0.32 * (w - 0.5) := by
  obtain ⟨hd1, hd2⟩ := df_half_bounds
  obtain ⟨ht1, ht2⟩ := tan_half_bounds
  simp only [newtonTarget]
  nlinarith [mul_le_mul_of_nonneg_right hd2 (by linarith : (0 : ℝ) ≤ w - 0.5)]

/-- Linear lower bound on the engineered target. -/
theorem le_newtonTarget (w : ℝ) (hw : 0.5 ≤ w) :
    0.29 * (w - 0.5) ≤ newtonTarget w := by
  obtain ⟨hd1, hd2⟩ := df_half_bounds
  obtain ⟨ht1, ht2⟩ := tan_half_bounds
  simp only [newtonTarget]
  nlinarith [mul_le_mul_of_nonneg_right hd1 (by linarith : (0 : ℝ) ≤ w - 0.5)]

/-- The landing lemma: when `cos²w = 1` and `w` is at least `1e-16` from the
seed, `inv_inverse (newtonTarget w) 0.5` takes one Newton step from `0.5`
exactly onto `w`, where the near-zero-derivative guard fires, so `w` itself is
returned. -/
theorem inv_inverse_lands (w : ℝ)
    (hw : Real.cos w * Real.cos w = 1)
    (hfar : (1e-16 : ℝ) ≤ |0.5 - w|) :
    inv_inverse (newtonTarget w) 0.5 = w := by
  obtain ⟨hd1, _⟩ := df_half_bounds
  have hdfne : 1 / (Real.cos 0.5 * Real.cos 0.5) - 1 ≠ 0 := ne_of_gt (by linarith)
  show inv_inverse_iter (newtonTarget w) 250 0.5 = w
  rw [show (250 : ℕ) = 249 + 1 by norm_num, inv_inverse_iter_succ, if_neg df_half_guard]
  have hf : Real.tan 0.5 - 0.5 - newtonTarget w =
      (1 / (Real.cos 0.5 * Real.cos 0.5) - 1) * (0.5 - w) := by
    simp only [newtonTarget]; ring
  rw [hf, mul_div_cancel_left₀ _ hdfne,
    if_neg (fun hc => (not_lt.mpr hfar) hc.1),
    show (0.5 : ℝ) - (0.5 - w) = w by ring,
    show (249 : ℕ) = 248 + 1 by norm_num, inv_inverse_iter_succ,
    if_pos (by rw [hw]; norm_num)]

/-- Claim C1: for strictly positive inputs, `mow_spur_external_dp` computes
`alpha` as the pressure angle in radians, `Dp = z/DP`, `Db = Dp·cos α`,
`inv(α)`, `inv β = t/Dp - π/z + inv α + d/Db`, `β = inv_inverse(inv β)` with
the default seed 0.5, and `C2 = Db/cos β`, returning exactly these derived
quantities in the result. -/
theorem C1_external_spur_formulas (z : ℤ) (DP alpha_deg t d : ℝ)
    (hz : 0 < z) (hDP : 0 < DP) (_hpa : 0 < alpha_deg) (ht : 0 < t) (hd : 0 < d) :
    ∃ r : Result, mow_spur_external_dp z DP alpha_deg t d = some r ∧
      r.Dp = (z : ℝ) / DP ∧
      r.Db = (z : ℝ) / DP * Real.cos (alpha_deg * (Real.pi / 180)) ∧
      r.inv_alpha = inv (alpha_deg * (Real.pi / 180)) ∧
      r.inv_beta = t / ((z : ℝ) / DP) - Real.pi / (z : ℝ) +
        inv (alpha_deg * (Real.pi / 180)) +
        d / ((z : ℝ) / DP * Real.cos (alpha_deg * (Real.pi / 180))) ∧
      r.beta_rad = inv_inverse r.inv_beta 0.5 ∧
      r.C2 = r.Db / Real.cos r.beta_rad := by
  have hvalid : ¬(z ≤ 0 ∨ DP ≤ 0 ∨ d ≤ 0 ∨ t ≤ 0) := by
    push_neg; exact ⟨hz, hDP, hd, ht⟩
  simp only [mow_spur_external_dp, PI_HIGH_PRECISION, if_neg hvalid]
  split_ifs with hpar
  · exact ⟨_, rfl, rfl, rfl, rfl, rfl, rfl, rfl⟩
  · exact ⟨_, rfl, rfl, rfl, rfl, rfl, rfl, rfl⟩

/-- Witness for C1 at `z = 4, DP = 8, pa = 20, t = 0.2, d = 0.2`. -/
theorem C1_external_spur_formulas_witness :
    ∃ r : Result, mow_spur_external_dp 4 8 20 0.2 0.2 = some r ∧
      r.Dp = ((4 : ℤ) : ℝ) / 8 ∧
      r.Db = ((4 : ℤ) : ℝ) / 8 * Real.cos (20 * (Real.pi / 180)) ∧
      r.inv_alpha = inv (20 * (Real.pi / 180)) ∧
      r.inv_beta = 0.2 / (((4 : ℤ) : ℝ) / 8) - Real.pi / ((4 : ℤ) : ℝ) +
        inv (20 * (Real.pi / 180)) +
        0.2 / (((4 : ℤ) : ℝ) / 8 * Real.cos (20 * (Real.pi / 180))) ∧
      r.beta_rad = inv_inverse r.inv_beta 0.5 ∧
      r.C2 = r.Db / Real.cos r.beta_rad :=
  C1_external_spur_formulas 4 8 20 0.2 0.2 (by norm_num) (by norm_num) (by norm_num)
    (by norm_num) (by norm_num)

/-- Claim C2: for strictly positive inputs, `mbp_spur_internal_dp` derives
`inv β = π/z - (π/DP - s)/Dp - d/Db + inv α`, solves `β = inv_inverse(inv β)`,
sets the pin-center distance to `Db/cos β`, and returns
`measurement = pinCenterDistance - d` for even teeth and
`oddToothFactor · pinCenterDistance - d` for odd teeth. -/
theorem C2_internal_spur_formulas (z : ℤ) (DP alpha_deg s d : ℝ)
    (hz : 0 < z) (hDP : 0 < DP) (_hpa : 0 < alpha_deg) (hs : 0 < s) (hd : 0 < d) :
    ∃ r : Result, mbp_spur_internal_dp z DP alpha_deg s d = some r ∧
      r.inv_beta = Real.pi / (z : ℝ) - (Real.pi / DP - s) / ((z : ℝ) / DP) -
        d / ((z : ℝ) / DP * Real.cos (alpha_deg * (Real.pi / 180))) +
        inv (alpha_deg * (Real.pi / 180)) ∧
      r.beta_rad = inv_inverse r.inv_beta 0.5 ∧
      r.C2 = r.Db / Real.cos r.beta_rad ∧
      (z % 2 = 0 → r.MOW = r.C2 - d) ∧
      (z % 2 ≠ 0 → r.MOW = Real.cos (Real.pi / (2 * (z : ℝ))) * r.C2 - d) := by
  have hvalid : ¬(z ≤ 0 ∨ DP ≤ 0 ∨ d ≤ 0 ∨ s ≤ 0) := by
    push_neg; exact ⟨hz, hDP, hd, hs⟩
  simp only [mbp_spur_internal_dp, PI_HIGH_PRECISION, if_neg hvalid]
  split_ifs with hpar
  · refine ⟨_, rfl, rfl, rfl, ?_, ?_, ?_⟩
    · dsimp only; ring
    · intro _; dsimp only; ring
    · intro hc; exact absurd hpar hc
  · refine ⟨_, rfl, rfl, rfl, ?_, ?_, ?_⟩
    · dsimp only; ring
    · intro hc; exact absurd hc hpar
    · intro _; dsimp only; ring

/-- Witness for C2 at `z = 36, DP = 12, pa = 20, s = 0.1309, d = 0.14`. -/
theorem C2_internal_spur_formulas_witness :
    ∃ r : Result, mbp_spur_internal_dp 36 12 20 0.1309 0.14 = some r ∧
      r.inv_beta = Real.pi / ((36 : ℤ) : ℝ) - (Real.pi / 12 - 0.1309) / (((36 : ℤ) : ℝ) / 12) -
        0.14 / (((36 : ℤ) : ℝ) / 12 * Real.cos (20 * (Real.pi / 180))) +
        inv (20 * (Real.pi / 180)) ∧
      r.beta_rad = inv_inverse r.inv_beta 0.5 ∧
      r.C2 = r.Db / Real.cos r.beta_rad ∧
      ((36 : ℤ) % 2 = 0 → r.MOW = r.C2 - 0.14) ∧
      ((36 : ℤ) % 2 ≠ 0 → r.MOW = Real.cos (Real.pi / (2 * ((36 : ℤ) : ℝ))) * r.C2 - 0.14) :=
  C2_internal_spur_formulas 36 12 20 0.1309 0.14 (by norm_num) (by norm_num) (by norm_num)
    (by norm_num) (by norm_num)

/-- Claim C3 (code bug in the source): the validation guards of both spur
solvers check only `z`, `DP`, `d` and the tooth dimension — the pressure angle
is not validated, contradicting the guards' own error message
`"All inputs must be positive (z, DP, alpha, t, d)"`.  At
`pa = -20` (non-positive) both solvers compute a result instead of raising. -/
theorem C3_pressure_angle_not_validated :
    (mow_spur_external_dp 10 8 (-20) 0.2 0.2).isSome = true ∧
    (mbp_spur_internal_dp 10 8 (-20) 0.2 0.2).isSome = true := by
  constructor
  · simp only [mow_spur_external_dp, PI_HIGH_PRECISION]
    rw [if_neg (by norm_num), if_pos (by decide)]
    rfl
  · simp only [mbp_spur_internal_dp, PI_HIGH_PRECISION]
    rw [if_neg (by norm_num), if_pos (by decide)]
    rfl

/-- Claim C9 (code bug in the source): `inv` is the bare expression
`tan x - x` with no branching whatsoever — it is a total function of every
real `x`, including `±π/2`, and never raises a domain error. -/
theorem C9_involute_unguarded : ∀ x : ℝ, inv x = Real.tan x - x := fun _ => rfl

/-- Counterexample to claim C5 as stated: for an odd tooth count the solvers
return the method string `"odd tooth"` (with a space), not `"odd-tooth"`. -/
theorem C5_counterexample :
    ∃ r : Result, mow_spur_external_dp 5 8 20 0.2 0.2 = some r ∧
      r.method = "odd tooth" ∧ r.method ≠ "odd-tooth" := by
  simp only [mow_spur_external_dp, PI_HIGH_PRECISION]
  rw [if_neg (by norm_num), if_neg (by decide)]
  exact ⟨_, rfl, rfl, by decide⟩

/-- Claim C5 as amended: for every valid input, both spur solvers return
method `"2-pin"` with `factor = 1.0` iff `teeth` is even, and method
`"odd tooth"` (with a space, not the spec's `"odd-tooth"`) with
`factor = cos(π/(2z))` iff `teeth` is odd; parity of `z` is the sole
determinant. -/
theorem C5_amended_parity (z : ℤ) (DP pa t s d : ℝ)
    (hz : 0 < z) (hDP : 0 < DP) (ht : 0 < t) (hs : 0 < s) (hd : 0 < d) :
    ∃ re ri : Result,
      mow_spur_external_dp z DP pa t d = some re ∧
      mbp_spur_internal_dp z DP pa s d = some ri ∧
      (re.method = "2-pin" ↔ Even z) ∧
      (re.method = "odd tooth" ↔ ¬Even z) ∧
      (ri.method = "2-pin" ↔ Even z) ∧
      (ri.method = "odd tooth" ↔ ¬Even z) ∧
      (Even z → re.factor = 1 ∧ ri.factor = 1) ∧
      (¬Even z → re.factor = Real.cos (Real.pi / (2 * (z : ℝ))) ∧
        ri.factor = Real.cos (Real.pi / (2 * (z : ℝ)))) := by
  have hve : ¬(z ≤ 0 ∨ DP ≤ 0 ∨ d ≤ 0 ∨ t ≤ 0) := by push_neg; exact ⟨hz, hDP, hd, ht⟩
  have hvi : ¬(z ≤ 0 ∨ DP ≤ 0 ∨ d ≤ 0 ∨ s ≤ 0) := by push_neg; exact ⟨hz, hDP, hd, hs⟩
  simp only [mow_spur_external_dp, mbp_spur_internal_dp, PI_HIGH_PRECISION,
    if_neg hve, if_neg hvi]
  by_cases hpar : z % 2 = 0
  · have hev : Even z := Int.even_iff.mpr hpar
    rw [if_pos hpar, if_pos hpar]
    refine ⟨_, _, rfl, rfl, ?_, ?_, ?_, ?_, ?_, ?_⟩
    · exact iff_of_true rfl hev
    · dsimp only; exact iff_of_false (by decide) (not_not_intro hev)
    · exact iff_of_true rfl hev
    · dsimp only; exact iff_of_false (by decide) (not_not_intro hev)
    · exact fun _ => ⟨rfl, rfl⟩
    · exact fun hc => absurd hev hc
  · have hodd : ¬Even z := fun h => hpar (Int.even_iff.mp h)
    rw [if_neg hpar, if_neg hpar]
    refine ⟨_, _, rfl, rfl, ?_, ?_, ?_, ?_, ?_, ?_⟩
    · dsimp only; exact iff_of_false (by decide) hodd
    · exact iff_of_true rfl hodd
    · dsimp only; exact iff_of_false (by decide) hodd
    · exact iff_of_true rfl hodd
    · exact fun hc => absurd hc hodd
    · exact fun _ => ⟨rfl, rfl⟩

/-- Witness for the amended C5 at the odd tooth count `z = 5`. -/
theorem C5_amended_parity_witness :
    ∃ re ri : Result,
      mow_spur_external_dp 5 8 20 0.2 0.2 = some re ∧
      mbp_spur_internal_dp 5 8 20 0.2 0.2 = some ri ∧
      (re.method = "2-pin" ↔ Even (5 : ℤ)) ∧
      (re.method = "odd tooth" ↔ ¬Even (5 : ℤ)) ∧
      (ri.method = "2-pin" ↔ Even (5 : ℤ)) ∧
      (ri.method = "odd tooth" ↔ ¬Even (5 : ℤ)) ∧
      (Even (5 : ℤ) → re.factor = 1 ∧ ri.factor = 1) ∧
      (¬Even (5 : ℤ) → re.factor = Real.cos (Real.pi / (2 * ((5 : ℤ) : ℝ))) ∧
        ri.factor = Real.cos (Real.pi / (2 * ((5 : ℤ) : ℝ)))) :=
  C5_amended_parity 5 8 20 0.2 0.2 0.2 (by norm_num) (by norm_num) (by norm_num)
    (by norm_num) (by norm_num)

/-- Claim C10: for every successful call, both even and odd branches satisfy
one uniform relation: `measurement = pinCenterDistance · factor + d` for the
external solver and `measurement = pinCenterDistance · factor - d` for the
internal solver (the even branch being the `factor = 1` instance). -/
theorem C10_uniform_measurement_relation (z : ℤ) (DP pa t s d : ℝ)
    (hz : 0 < z) (hDP : 0 < DP) (ht : 0 < t) (hs : 0 < s) (hd : 0 < d) :
    ∃ re ri : Result,
      mow_spur_external_dp z DP pa t d = some re ∧
      mbp_spur_internal_dp z DP pa s d = some ri ∧
      re.MOW = re.C2 * re.factor + d ∧
      ri.MOW = ri.C2 * ri.factor - d := by
  have hve : ¬(z ≤ 0 ∨ DP ≤ 0 ∨ d ≤ 0 ∨ t ≤ 0) := by push_neg; exact ⟨hz, hDP, hd, ht⟩
  have hvi : ¬(z ≤ 0 ∨ DP ≤ 0 ∨ d ≤ 0 ∨ s ≤ 0) := by push_neg; exact ⟨hz, hDP, hd, hs⟩
  simp only [mow_spur_external_dp, mbp_spur_internal_dp, PI_HIGH_PRECISION,
    if_neg hve, if_neg hvi]
  split_ifs with hpar
  · exact ⟨_, _, rfl, rfl, by dsimp only; try ring, by dsimp only; try ring⟩
  · exact ⟨_, _, rfl, rfl, by dsimp only; try ring, by dsimp only; try ring⟩

/-- Witness for C10 at `z = 45, DP = 8, pa = 20, t = 0.2124, s = 0.2, d = 0.216`. -/
theorem C10_uniform_measurement_relation_witness :
    ∃ re ri : Result,
      mow_spur_external_dp 45 8 20 0.2124 0.216 = some re ∧
      mbp_spur_internal_dp 45 8 20 0.2 0.216 = some ri ∧
      re.MOW = re.C2 * re.factor + 0.216 ∧
      ri.MOW = ri.C2 * ri.factor - 0.216 :=
  C10_uniform_measurement_relation 45 8 20 0.2124 0.2 0.216 (by norm_num) (by norm_num)
    (by norm_num) (by norm_num) (by norm_num)

/-- Claim C6: for `|helixDeg| ≥ 0.01` each helical wrapper returns exactly the
spur solver applied to the transverse diametral pitch `nDP·cos(helixRad)`, the
transverse pressure angle `atan(tan(npaRad)/cos(helixRad))` (carried in
degrees), and the transverse tooth dimension `t/cos(helixRad)` (resp.
`s/cos(helixRad)`), with `z` and `d` unchanged, augmented with the
normal-plane and transverse/base-helix traceability values and a
`helical_correction` of exactly 0 — no further numeric correction. -/
theorem C6_helical_transverse_delegation (z : ℤ) (nDP npa t s d h : ℝ)
    (hh : 0.01 ≤ |h|) :
    mow_helical_external_dp z nDP npa t d h =
      (mow_spur_external_dp z (nDP * Real.cos (h * (Real.pi / 180)))
          (Real.arctan (Real.tan (npa * (Real.pi / 180)) / Real.cos (h * (Real.pi / 180))) *
            (180 / Real.pi))
          (t / Real.cos (h * (Real.pi / 180))) d).map
        (fun r => (r, some
          ⟨h, npa, nDP,
            Real.arctan (Real.tan (npa * (Real.pi / 180)) / Real.cos (h * (Real.pi / 180))) *
              (180 / Real.pi),
            nDP * Real.cos (h * (Real.pi / 180)),
            Real.arctan (Real.tan (h * (Real.pi / 180)) *
                Real.cos (Real.arctan (Real.tan (npa * (Real.pi / 180)) /
                  Real.cos (h * (Real.pi / 180))))) * (180 / Real.pi),
            0⟩)) ∧
    mbp_helical_internal_dp z nDP npa s d h =
      (mbp_spur_internal_dp z (nDP * Real.cos (h * (Real.pi / 180)))
          (Real.arctan (Real.tan (npa * (Real.pi / 180)) / Real.cos (h * (Real.pi / 180))) *
            (180 / Real.pi))
          (s / Real.cos (h * (Real.pi / 180))) d).map
        (fun r => (r, some
          ⟨h, npa, nDP,
            Real.arctan (Real.tan (npa * (Real.pi / 180)) / Real.cos (h * (Real.pi / 180))) *
              (180 / Real.pi),
            nDP * Real.cos (h * (Real.pi / 180)),
            Real.arctan (Real.tan (h * (Real.pi / 180)) *
                Real.cos (Real.arctan (Real.tan (npa * (Real.pi / 180)) /
                  Real.cos (h * (Real.pi / 180))))) * (180 / Real.pi),
            0⟩)) := by
  have hc : ¬|h| < 0.01 := not_lt.mpr hh
  constructor <;>
    simp only [mow_helical_external_dp, mbp_helical_internal_dp, helical_conversions,
      PI_HIGH_PRECISION, if_neg hc]

/-- Witness for C6 at `z = 9, nDP = 8, npa = 20, t = s = 0.2, d = 0.2, h = 15`. -/
theorem C6_helical_transverse_delegation_witness :
    mow_helical_external_dp 9 8 20 0.2 0.2 15 =
      (mow_spur_external_dp 9 (8 * Real.cos (15 * (Real.pi / 180)))
          (Real.arctan (Real.tan (20 * (Real.pi / 180)) / Real.cos (15 * (Real.pi / 180))) *
            (180 / Real.pi))
          (0.2 / Real.cos (15 * (Real.pi / 180))) 0.2).map
        (fun r => (r, some
          ⟨15, 20, 8,
            Real.arctan (Real.tan (20 * (Real.pi / 180)) / Real.cos (15 * (Real.pi / 180))) *
              (180 / Real.pi),
            8 * Real.cos (15 * (Real.pi / 180)),
            Real.arctan (Real.tan (15 * (Real.pi / 180)) *
                Real.cos (Real.arctan (Real.tan (20 * (Real.pi / 180)) /
                  Real.cos (15 * (Real.pi / 180))))) * (180 / Real.pi),
            0⟩)) ∧
    mbp_helical_internal_dp 9 8 20 0.2 0.2 15 =
      (mbp_spur_internal_dp 9 (8 * Real.cos (15 * (Real.pi / 180)))
          (Real.arctan (Real.tan (20 * (Real.pi / 180)) / Real.cos (15 * (Real.pi / 180))) *
            (180 / Real.pi))
          (0.2 / Real.cos (15 * (Real.pi / 180))) 0.2).map
        (fun r => (r, some
          ⟨15, 20, 8,
            Real.arctan (Real.tan (20 * (Real.pi / 180)) / Real.cos (15 * (Real.pi / 180))) *
              (180 / Real.pi),
            8 * Real.cos (15 * (Real.pi / 180)),
            Real.arctan (Real.tan (15 * (Real.pi / 180)) *
                Real.cos (Real.arctan (Real.tan (20 * (Real.pi / 180)) /
                  Real.cos (15 * (Real.pi / 180))))) * (180 / Real.pi),
            0⟩)) :=
  C6_helical_transverse_delegation 9 8 20 0.2 0.2 0.2 15
    (le_trans (by norm_num : (0.01 : ℝ) ≤ 15) (le_abs_self _))

/-- Claim C7: below the system-wide spur threshold `|helixDeg| < 0.01` the
helical wrappers delegate identically to the spur solvers on the unchanged
normal-plane parameters; the results are equal outright (hence in particular
the measurements agree to within `1e-6`). -/
theorem C7_spur_helical_consistency (z : ℤ) (nDP npa t s d h : ℝ)
    (hh : |h| < 0.01) :
    mow_helical_external_dp z nDP npa t d h =
      (mow_spur_external_dp z nDP npa t d).map (fun r => (r, none)) ∧
    mbp_helical_internal_dp z nDP npa s d h =
      (mbp_spur_internal_dp z nDP npa s d).map (fun r => (r, none)) ∧
    (∀ rh e rs, mow_helical_external_dp z nDP npa t d h = some (rh, e) →
      mow_spur_external_dp z nDP npa t d = some rs → |rh.MOW - rs.MOW| ≤ 1e-6) ∧
    (∀ rh e rs, mbp_helical_internal_dp z nDP npa s d h = some (rh, e) →
      mbp_spur_internal_dp z nDP npa s d = some rs → |rh.MOW - rs.MOW| ≤ 1e-6) := by
  have h1 : mow_helical_external_dp z nDP npa t d h =
      (mow_spur_external_dp z nDP npa t d).map (fun r => (r, none)) := by
    simp only [mow_helical_external_dp, if_pos hh]
  have h2 : mbp_helical_internal_dp z nDP npa s d h =
      (mbp_spur_internal_dp z nDP npa s d).map (fun r => (r, none)) := by
    simp only [mbp_helical_internal_dp, if_pos hh]
  refine ⟨h1, h2, ?_, ?_⟩
  · intro rh e rs hhel hspur
    rw [h1, hspur] at hhel
    simp only [Option.map_some', Option.some.injEq, Prod.mk.injEq] at hhel
    rw [← hhel.1]
    simp only [sub_self, abs_zero]
    norm_num
  · intro rh e rs hhel hspur
    rw [h2, hspur] at hhel
    simp only [Option.map_some', Option.some.injEq, Prod.mk.injEq] at hhel
    rw [← hhel.1]
    simp only [sub_self, abs_zero]
    norm_num

/-- Witness for C7 at `helixDeg = 0` with `z = 9, nDP = 8, npa = 20,
t = s = 0.2, d = 0.2`. -/
theorem C7_spur_helical_consistency_witness :
    mow_helical_external_dp 9 8 20 0.2 0.2 0 =
      (mow_spur_external_dp 9 8 20 0.2 0.2).map (fun r => (r, none)) ∧
    mbp_helical_internal_dp 9 8 20 0.2 0.2 0 =
      (mbp_spur_internal_dp 9 8 20 0.2 0.2).map (fun r => (r, none)) ∧
    (∀ rh e rs, mow_helical_external_dp 9 8 20 0.2 0.2 0 = some (rh, e) →
      mow_spur_external_dp 9 8 20 0.2 0.2 = some rs → |rh.MOW - rs.MOW| ≤ 1e-6) ∧
    (∀ rh e rs, mbp_helical_internal_dp 9 8 20 0.2 0.2 0 = some (rh, e) →
      mbp_spur_internal_dp 9 8 20 0.2 0.2 = some rs → |rh.MOW - rs.MOW| ≤ 1e-6) :=
  C7_spur_helical_consistency 9 8 20 0.2 0.2 0.2 0 (by rw [abs_zero]; norm_num)

/-- `cos 1.39` is positive and at most `0.1808`. -/
theorem cos_139_bounds : (0 : ℝ) < Real.cos 1.39 ∧ Real.cos 1.39 ≤ 0.1808 := by
  constructor
  · exact Real.cos_pos_of_mem_Ioo
      ⟨by linarith [Real.pi_gt_three], by linarith [Real.pi_gt_three]⟩
  · have h : Real.sin (Real.pi / 2 - 1.39) = Real.cos 1.39 :=
      Real.sin_pi_div_two_sub 1.39
    have hu : Real.sin (Real.pi / 2 - 1.39) < Real.pi / 2 - 1.39 :=
      Real.sin_lt (by linarith [Real.pi_gt_three])
    rw [h] at hu
    linarith [Real.pi_lt_d4]

/-- `sin 1.39` is at least `0.98`. -/
theorem sin_139_lb : (0.98 : ℝ) ≤ Real.sin 1.39 := by
  have h : Real.cos (Real.pi / 2 - 1.39) = Real.sin 1.39 :=
    Real.cos_pi_div_two_sub 1.39
  have hb : 1 - (Real.pi / 2 - 1.39) ^ 2 / 2 ≤ Real.cos (Real.pi / 2 - 1.39) :=
    Real.one_sub_sq_div_two_le_cos
  rw [h] at hb
  nlinarith [Real.pi_gt_d2, Real.pi_lt_d4]

/-- `tan 1.39` is at least `4`. -/
theorem tan_139_lb : (4 : ℝ) ≤ Real.tan 1.39 := by
  obtain ⟨hcpos, hcub⟩ := cos_139_bounds
  have hs := sin_139_lb
  rw [Real.tan_eq_sin_div_cos, le_div_iff₀ hcpos]
  nlinarith

/-- The involute `tan x - x` is continuous on `[0, 1.39]`. -/
theorem tan_sub_id_contOn :
    ContinuousOn (fun x : ℝ => Real.tan x - x) (Set.Icc 0 1.39) := by
  apply ContinuousOn.sub
  · apply Real.continuousOn_tan.mono
    intro x hx
    obtain ⟨hx0, hx1⟩ := hx
    show Real.cos x ≠ 0
    exact ne_of_gt (Real.cos_pos_of_mem_Ioo
      ⟨by linarith [Real.pi_gt_three], by linarith [Real.pi_gt_three]⟩)
  · exact continuousOn_id

/-- The engineered target for `w = π` lies between the involute values at the
ends of `[0, 1.39]`, so it is an involute value of some point of that interval. -/
theorem newtonTarget_pi_mem :
    newtonTarget Real.pi ∈
      Set.Icc ((fun x : ℝ => Real.tan x - x) 0) ((fun x : ℝ => Real.tan x - x) 1.39) := by
  simp only [Real.tan_zero, Set.mem_Icc]
  have h1 := le_newtonTarget Real.pi (by linarith [Real.pi_gt_three])
  have h2 := newtonTarget_le Real.pi (by linarith [Real.pi_gt_three])
  have h3 := tan_139_lb
  constructor
  · nlinarith [Real.pi_gt_three]
  · nlinarith [Real.pi_lt_d2]

/-- `π` is far from the seed `0.5`. -/
theorem pi_far_from_seed : (1e-16 : ℝ) ≤ |0.5 - Real.pi| := by
  rw [abs_of_neg (by linarith [Real.pi_gt_three] : (0.5 : ℝ) - Real.pi < 0)]
  linarith [Real.pi_gt_three]

/-- Counterexample to claim C4 as stated: the involute round-trip does NOT
hold on all of `(-1.4, 1.4)`.  There is an `x₀ ∈ [0, 1.39]` whose involute
value makes Newton's very first step from the seed `0.5` land exactly on `π`,
where the near-zero-derivative guard (`f'(π) = 1/cos²π - 1 = 0 < 1e-18`) stops
the iteration; `inv_inverse (inv x₀) 0.5 = π`, which is more than `1.7` away
from `x₀`, not within `1e-8`. -/
theorem C4_counterexample :
    ¬∀ x : ℝ, -1.4 < x → x < 1.4 → |inv_inverse (inv x) 0.5 - x| ≤ 1e-8 := by
  intro hcl
  obtain ⟨x0, hx0mem, hx0eq⟩ :=
    intermediate_value_Icc (by norm_num : (0 : ℝ) ≤ 1.39) tan_sub_id_contOn newtonTarget_pi_mem
  obtain ⟨hx0l, hx0r⟩ := hx0mem
  have h1 : inv x0 = newtonTarget Real.pi := hx0eq
  have h2 := hcl x0 (by linarith) (by linarith)
  rw [h1, inv_inverse_lands Real.pi (by rw [Real.cos_pi]; norm_num) pi_far_from_seed] at h2
  rw [abs_of_pos (by linarith [Real.pi_gt_three] : (0 : ℝ) < Real.pi - x0)] at h2
  linarith [Real.pi_gt_three]

/-- Claim C4 as amended: the `1e-8` round-trip does not hold throughout
`(-1.4, 1.4)` (see the counterexample); it does hold at the point `x = 0.5`,
where the default seed already solves the equation exactly — `f(0.5) = 0`, the
first step is `0`, the convergence test fires, and `0.5` is returned exactly. -/
theorem C4_amended_roundtrip_at_seed :
    inv_inverse (inv 0.5) 0.5 = 0.5 ∧ |inv_inverse (inv 0.5) 0.5 - 0.5| ≤ 1e-8 := by
  have hmain : inv_inverse (inv 0.5) 0.5 = 0.5 := by
    show inv_inverse_iter (inv 0.5) 250 0.5 = 0.5
    rw [show (250 : ℕ) = 249 + 1 by norm_num, inv_inverse_iter_succ, if_neg df_half_guard]
    have hf : Real.tan 0.5 - 0.5 - inv 0.5 = 0 := by simp only [inv]; ring
    rw [hf, zero_div,
      if_pos ⟨by rw [abs_zero]; norm_num, by rw [abs_zero]; norm_num⟩]
    norm_num
  refine ⟨hmain, ?_⟩
  rw [hmain, sub_self, abs_zero]
  norm_num

/-- For the gear `z = 2, DP = 1, pa = 45°, t = 1` and the engineered pin
diameter `extPin k` with `cos²(kπ) = 1`, the external solver's Newton solve
returns exactly `kπ`, giving measurement `√2/cos(kπ) + extPin k`. -/
theorem mow_ext_engineered (k : ℝ) (hk : 0 < extPin k)
    (hw : Real.cos (k * Real.pi) * Real.cos (k * Real.pi) = 1)
    (hfar : (1e-16 : ℝ) ≤ |0.5 - k * Real.pi|) :
    ∃ r : Result, mow_spur_external_dp 2 1 45 1 (extPin k) = some r ∧
      r.beta_rad = k * Real.pi ∧
      r.Db = Real.sqrt 2 ∧
      r.MOW = Real.sqrt 2 / Real.cos (k * Real.pi) + extPin k := by
  have hs2pos : (0 : ℝ) < Real.sqrt 2 := Real.sqrt_pos.mpr (by norm_num)
  have hvalid : ¬((2 : ℤ) ≤ 0 ∨ (1 : ℝ) ≤ 0 ∨ extPin k ≤ 0 ∨ (1 : ℝ) ≤ 0) := by
    push_neg; exact ⟨by norm_num, by norm_num, hk, by norm_num⟩
  simp only [mow_spur_external_dp, PI_HIGH_PRECISION, inv, if_neg hvalid]
  rw [if_pos (by decide : (2 : ℤ) % 2 = 0)]
  push_cast
  rw [show (45 : ℝ) * (Real.pi / 180) = Real.pi / 4 by ring,
    Real.tan_pi_div_four, Real.cos_pi_div_four,
    show (2 : ℝ) / 1 * (Real.sqrt 2 / 2) = Real.sqrt 2 by ring]
  have key : (1 : ℝ) / (2 / 1) - Real.pi / 2 + (1 - Real.pi / 4) +
      extPin k / Real.sqrt 2 = newtonTarget (k * Real.pi) := by
    simp only [extPin]
    rw [mul_div_cancel_left₀ _ (ne_of_gt hs2pos)]
    ring
  rw [key, inv_inverse_lands (k * Real.pi) hw hfar]
  exact ⟨_, rfl, rfl, rfl, rfl⟩

/-- For the gear `z = 2, DP = 1, pa = 45°, s = 8` and the engineered pin
diameter `intPin k` with `cos²(kπ) = 1`, the internal solver's Newton solve
returns exactly `kπ`, giving measurement `√2/cos(kπ) - intPin k`. -/
theorem mbp_int_engineered (k : ℝ) (hk : 0 < intPin k)
    (hw : Real.cos (k * Real.pi) * Real.cos (k * Real.pi) = 1)
    (hfar : (1e-16 : ℝ) ≤ |0.5 - k * Real.pi|) :
    ∃ r : Result, mbp_spur_internal_dp 2 1 45 8 (intPin k) = some r ∧
      r.beta_rad = k * Real.pi ∧
      r.Db = Real.sqrt 2 ∧
      r.MOW = Real.sqrt 2 / Real.cos (k * Real.pi) - intPin k := by
  have hs2pos : (0 : ℝ) < Real.sqrt 2 := Real.sqrt_pos.mpr (by norm_num)
  have hvalid : ¬((2 : ℤ) ≤ 0 ∨ (1 : ℝ) ≤ 0 ∨ intPin k ≤ 0 ∨ (8 : ℝ) ≤ 0) := by
    push_neg; exact ⟨by norm_num, by norm_num, hk, by norm_num⟩
  simp only [mbp_spur_internal_dp, PI_HIGH_PRECISION, inv, if_neg hvalid]
  rw [if_pos (by decide : (2 : ℤ) % 2 = 0)]
  push_cast
  rw [show (45 : ℝ) * (Real.pi / 180) = Real.pi / 4 by ring,
    Real.tan_pi_div_four, Real.cos_pi_div_four,
    show (2 : ℝ) / 1 * (Real.sqrt 2 / 2) = Real.sqrt 2 by ring]
  have key : Real.pi / 2 - (Real.pi / 1 - 8) / (2 / 1) - intPin k / Real.sqrt 2 +
      (1 - Real.pi / 4) = newtonTarget (k * Real.pi) := by
    simp only [intPin]
    rw [mul_div_cancel_left₀ _ (ne_of_gt hs2pos)]
    ring
  rw [key, inv_inverse_lands (k * Real.pi) hw hfar]
  exact ⟨_, rfl, rfl, rfl, rfl⟩

/-- The odd-tooth projection factor `cos(π/(2z))` is nonnegative for every
positive tooth count. -/
theorem cos_half_tooth_nonneg (z : ℤ) (hz : 0 < z) :
    0 ≤ Real.cos (Real.pi / (2 * (z : ℝ))) := by
  have hz1 : (1 : ℝ) ≤ (z : ℝ) := by exact_mod_cast hz
  apply Real.cos_nonneg_of_mem_Icc
  constructor
  · have hpos : 0 < Real.pi / (2 * (z : ℝ)) := by positivity
    linarith [Real.pi_pos]
  · rw [div_le_div_iff₀ (by linarith : (0 : ℝ) < 2 * (z : ℝ)) (by norm_num : (0 : ℝ) < 2)]
    nlinarith [Real.pi_pos]

/-- Counterexample to claim C8 as stated: measurement is NOT strictly
monotone in the pin diameter over the whole validated range.  For
`z = 2, DP = 1, pa = 45°, t = 1` and the engineered pins
`extPin 2 < extPin 3` (both positive), the Newton solve lands on the contact
angles `2π` and `3π` respectively, whose cosines are `1` and `-1`, so the
external measurement `√2/cos β + d` DROPS from `√2 + extPin 2` to
`-√2 + extPin 3` even though the pin grew. -/
theorem C8_counterexample :
    ¬∀ (z : ℤ) (DP pa t s d1 d2 : ℝ), 0 < z → 0 < DP → 0 < pa → 0 < t → 0 < s →
      0 < d1 → d1 < d2 →
      (∀ r1 r2, mow_spur_external_dp z DP pa t d1 = some r1 →
        mow_spur_external_dp z DP pa t d2 = some r2 → r1.MOW < r2.MOW) ∧
      (∀ r1 r2, mbp_spur_internal_dp z DP pa s d1 = some r1 →
        mbp_spur_internal_dp z DP pa s d2 = some r2 → r2.MOW < r1.MOW) := by
  intro hcl
  have hs2pos : (0 : ℝ) < Real.sqrt 2 := Real.sqrt_pos.mpr (by norm_num)
  have hpi1 := Real.pi_gt_d2
  have hpi2 := Real.pi_lt_d2
  have hT2lb := le_newtonTarget (2 * Real.pi) (by linarith)
  have hT2ub := newtonTarget_le (2 * Real.pi) (by linarith)
  have hT3lb := le_newtonTarget (3 * Real.pi) (by linarith)
  have hT3ub := newtonTarget_le (3 * Real.pi) (by linarith)
  have he2pos : 0 < extPin 2 := by
    simp only [extPin]
    apply mul_pos hs2pos
    nlinarith
  have he23 : extPin 2 < extPin 3 := by
    have hT : newtonTarget (2 * Real.pi) < newtonTarget (3 * Real.pi) := by nlinarith
    simp only [extPin]
    nlinarith [mul_pos hs2pos (sub_pos.mpr hT)]
  have hw2 : Real.cos (2 * Real.pi) * Real.cos (2 * Real.pi) = 1 := by
    rw [Real.cos_two_pi]; norm_num
  have hw3 : Real.cos (3 * Real.pi) * Real.cos (3 * Real.pi) = 1 := by
    rw [show (3 : ℝ) * Real.pi = Real.pi + 2 * Real.pi by ring, Real.cos_add_two_pi,
      Real.cos_pi]
    norm_num
  have hfar2 : (1e-16 : ℝ) ≤ |0.5 - 2 * Real.pi| := by
    rw [abs_of_neg (by linarith : (0.5 : ℝ) - 2 * Real.pi < 0)]; linarith
  have hfar3 : (1e-16 : ℝ) ≤ |0.5 - 3 * Real.pi| := by
    rw [abs_of_neg (by linarith : (0.5 : ℝ) - 3 * Real.pi < 0)]; linarith
  obtain ⟨r2, hr2, hb2, -, hM2⟩ := mow_ext_engineered 2 he2pos hw2 hfar2
  obtain ⟨r3, hr3, hb3, -, hM3⟩ := mow_ext_engineered 3 (lt_trans he2pos he23) hw3 hfar3
  have hmono := (hcl 2 1 45 1 1 (extPin 2) (extPin 3) (by norm_num) (by norm_num)
    (by norm_num) (by norm_num) (by norm_num) he2pos he23).1
  have hlt := hmono r2 r3 hr2 hr3
  rw [hM2, hM3, Real.cos_two_pi,
    show (3 : ℝ) * Real.pi = Real.pi + 2 * Real.pi by ring, Real.cos_add_two_pi,
    Real.cos_pi, div_one] at hlt
  rw [show Real.sqrt 2 / (-1 : ℝ) = -Real.sqrt 2 by ring] at hlt
  have hd32 : newtonTarget (3 * Real.pi) - newtonTarget (2 * Real.pi) < 2 := by nlinarith
  simp only [extPin] at hlt
  nlinarith [mul_pos hs2pos (by linarith :
    (0 : ℝ) < 2 - (newtonTarget (3 * Real.pi) - newtonTarget (2 * Real.pi)))]

/-- Claim C8 as amended: the measurement IS strictly increasing (external)
resp. strictly decreasing (internal) in the pin diameter whenever the base
diameter is nonnegative and the larger pin's solved contact angle has a
positive cosine no larger (external) resp. no smaller (internal) than that of
the smaller pin — the way the contact-angle cosine responds to a growing pin
in a generic principal-branch solve.  Unrestricted strict monotonicity over
all positive pin diameters fails because the Newton solve can land on a
contact angle whose cosine has flipped sign (see the counterexample). -/
theorem C8_amended_monotonicity (ze zi : ℤ)
    (DPe pae te de1 de2 DPi pai si di1 di2 : ℝ)
    (hde : de1 < de2) (hdi : di1 < di2) (re1 re2 ri1 ri2 : Result)
    (he1 : mow_spur_external_dp ze DPe pae te de1 = some re1)
    (he2 : mow_spur_external_dp ze DPe pae te de2 = some re2)
    (hi1 : mbp_spur_internal_dp zi DPi pai si di1 = some ri1)
    (hi2 : mbp_spur_internal_dp zi DPi pai si di2 = some ri2)
    (hdbe : 0 ≤ re1.Db)
    (hcepos : 0 < Real.cos re2.beta_rad)
    (hceord : Real.cos re2.beta_rad ≤ Real.cos re1.beta_rad)
    (hdbi : 0 ≤ ri1.Db)
    (hcipos : 0 < Real.cos ri1.beta_rad)
    (hciord : Real.cos ri1.beta_rad ≤ Real.cos ri2.beta_rad) :
    re1.MOW < re2.MOW ∧ ri2.MOW < ri1.MOW := by
  constructor
  · simp only [mow_spur_external_dp, PI_HIGH_PRECISION] at he1 he2
    by_cases hv1 : (ze ≤ 0 ∨ DPe ≤ 0 ∨ de1 ≤ 0 ∨ te ≤ 0)
    · rw [if_pos hv1] at he1; exact absurd he1 (by simp)
    by_cases hv2 : (ze ≤ 0 ∨ DPe ≤ 0 ∨ de2 ≤ 0 ∨ te ≤ 0)
    · rw [if_pos hv2] at he2; exact absurd he2 (by simp)
    have hz : 0 < ze := by
      rcases lt_or_le 0 ze with h | h
      · exact h
      · exact absurd (Or.inl h) hv1
    rw [if_neg hv1] at he1
    rw [if_neg hv2] at he2
    by_cases hpar : ze % 2 = 0
    · rw [if_pos hpar] at he1 he2
      injection he1 with he1
      injection he2 with he2
      subst he1; subst he2
      dsimp only at hdbe hcepos hceord ⊢
      have hpos1 := lt_of_lt_of_le hcepos hceord
      have h1 := (div_le_div_iff₀ hpos1 hcepos).mpr (mul_le_mul_of_nonneg_left hceord hdbe)
      linarith
    · rw [if_neg hpar] at he1 he2
      injection he1 with he1
      injection he2 with he2
      subst he1; subst he2
      dsimp only at hdbe hcepos hceord ⊢
      have hpos1 := lt_of_lt_of_le hcepos hceord
      have h1 := (div_le_div_iff₀ hpos1 hcepos).mpr (mul_le_mul_of_nonneg_left hceord hdbe)
      have h2 := mul_le_mul_of_nonneg_right h1 (cos_half_tooth_nonneg ze hz)
      linarith
  · simp only [mbp_spur_internal_dp, PI_HIGH_PRECISION] at hi1 hi2
    by_cases hv1 : (zi ≤ 0 ∨ DPi ≤ 0 ∨ di1 ≤ 0 ∨ si ≤ 0)
    · rw [if_pos hv1] at hi1; exact absurd hi1 (by simp)
    by_cases hv2 : (zi ≤ 0 ∨ DPi ≤ 0 ∨ di2 ≤ 0 ∨ si ≤ 0)
    · rw [if_pos hv2] at hi2; exact absurd hi2 (by simp)
    have hz : 0 < zi := by
      rcases lt_or_le 0 zi with h | h
      · exact h
      · exact absurd (Or.inl h) hv1
    rw [if_neg hv1] at hi1
    rw [if_neg hv2] at hi2
    by_cases hpar : zi % 2 = 0
    · rw [if_pos hpar] at hi1 hi2
      injection hi1 with hi1
      injection hi2 with hi2
      subst hi1; subst hi2
      dsimp only at hdbi hcipos hciord ⊢
      have hpos2 := lt_of_lt_of_le hcipos hciord
      have h1 := (div_le_div_iff₀ hpos2 hcipos).mpr (mul_le_mul_of_nonneg_left hciord hdbi)
      linarith
    · rw [if_neg hpar] at hi1 hi2
      injection hi1 with hi1
      injection hi2 with hi2
      subst hi1; subst hi2
      dsimp only at hdbi hcipos hciord ⊢
      have hpos2 := lt_of_lt_of_le hcipos hciord
      have h1 := (div_le_div_iff₀ hpos2 hcipos).mpr (mul_le_mul_of_nonneg_left hciord hdbi)
      have h2 := mul_le_mul_of_nonneg_left h1 (cos_half_tooth_nonneg zi hz)
      linarith

/-- Witness for the amended C8: engineered pins whose Newton solves land on
`2π` and `4π` — equal cosines, so the hypotheses hold and the monotonicity
conclusions follow. -/
theorem C8_amended_monotonicity_witness :
    ∃ re1 re2 ri1 ri2 : Result,
      mow_spur_external_dp 2 1 45 1 (extPin 2) = some re1 ∧
      mow_spur_external_dp 2 1 45 1 (extPin 4) = some re2 ∧
      mbp_spur_internal_dp 2 1 45 8 (intPin 4) = some ri1 ∧
      mbp_spur_internal_dp 2 1 45 8 (intPin 2) = some ri2 ∧
      extPin 2 < extPin 4 ∧ intPin 4 < intPin 2 ∧
      re1.MOW < re2.MOW ∧ ri2.MOW < ri1.MOW := by
  have hs2pos : (0 : ℝ) < Real.sqrt 2 := Real.sqrt_pos.mpr (by norm_num)
  have hpi1 := Real.pi_gt_d2
  have hpi2 := Real.pi_lt_d2
  have hT2lb := le_newtonTarget (2 * Real.pi) (by linarith)
  have hT2ub := newtonTarget_le (2 * Real.pi) (by linarith)
  have hT4lb := le_newtonTarget (4 * Real.pi) (by linarith)
  have hT4ub := newtonTarget_le (4 * Real.pi) (by linarith)
  have hw2 : Real.cos (2 * Real.pi) * Real.cos (2 * Real.pi) = 1 := by
    rw [Real.cos_two_pi]; norm_num
  have hw4 : Real.cos (4 * Real.pi) * Real.cos (4 * Real.pi) = 1 := by
    rw [show (4 : ℝ) * Real.pi = 2 * Real.pi + 2 * Real.pi by ring, Real.cos_add_two_pi,
      Real.cos_two_pi]
    norm_num
  have hfar2 : (1e-16 : ℝ) ≤ |0.5 - 2 * Real.pi| := by
    rw [abs_of_neg (by linarith : (0.5 : ℝ) - 2 * Real.pi < 0)]; linarith
  have hfar4 : (1e-16 : ℝ) ≤ |0.5 - 4 * Real.pi| := by
    rw [abs_of_neg (by linarith : (0.5 : ℝ) - 4 * Real.pi < 0)]; linarith
  have he2pos : 0 < extPin 2 := by
    simp only [extPin]
    apply mul_pos hs2pos
    nlinarith
  have hT24 : newtonTarget (2 * Real.pi) < newtonTarget (4 * Real.pi) := by nlinarith
  have he24 : extPin 2 < extPin 4 := by
    simp only [extPin]
    nlinarith [mul_pos hs2pos (sub_pos.mpr hT24)]
  have hi4pos : 0 < intPin 4 := by
    simp only [intPin]
    apply mul_pos hs2pos
    nlinarith
  have hi42 : intPin 4 < intPin 2 := by
    simp only [intPin]
    nlinarith [mul_pos hs2pos (sub_pos.mpr hT24)]
  obtain ⟨re1, hre1, hbe1, hDbe1, -⟩ := mow_ext_engineered 2 he2pos hw2 hfar2
  obtain ⟨re2, hre2, hbe2, -, -⟩ := mow_ext_engineered 4 (lt_trans he2pos he24) hw4 hfar4
  obtain ⟨ri1, hri1, hbi1, hDbi1, -⟩ := mbp_int_engineered 4 hi4pos hw4 hfar4
  obtain ⟨ri2, hri2, hbi2, -, -⟩ := mbp_int_engineered 2 (lt_trans hi4pos hi42) hw2 hfar2
  have hc4 : Real.cos (4 * Real.pi) = 1 := by
    rw [show (4 : ℝ) * Real.pi = 2 * Real.pi + 2 * Real.pi by ring, Real.cos_add_two_pi,
      Real.cos_two_pi]
  have hdbe : 0 ≤ re1.Db := by rw [hDbe1]; exact le_of_lt hs2pos
  have hcepos : 0 < Real.cos re2.beta_rad := by rw [hbe2, hc4]; norm_num
  have hceord : Real.cos re2.beta_rad ≤ Real.cos re1.beta_rad := by
    rw [hbe1, hbe2, hc4, Real.cos_two_pi]
  have hdbi : 0 ≤ ri1.Db := by rw [hDbi1]; exact le_of_lt hs2pos
  have hcipos : 0 < Real.cos ri1.beta_rad := by rw [hbi1, hc4]; norm_num
  have hciord : Real.cos ri1.beta_rad ≤ Real.cos ri2.beta_rad := by
    rw [hbi1, hbi2, hc4, Real.cos_two_pi]
  obtain ⟨hmow, hmbp⟩ := C8_amended_monotonicity 2 2 1 45 1 (extPin 2) (extPin 4)
    1 45 8 (intPin 4) (intPin 2) he24 hi42 re1 re2 ri1 ri2 hre1 hre2 hri1 hri2
    hdbe hcepos hceord hdbi hcipos hciord
  exact ⟨re1, re2, ri1, ri2, hre1, hre2, hri1, hri2, he24, hi42, hmow, hmbp⟩

end MOP
